import Mathlib

/-!
Verification of the SolDash pattern-analysis backend.

We shallowly embed the analytic core of `Backend/analysis.py` (class
`PatternAnalyzer`) together with `calculate_decile` from
`Backend/database.py`.  Python dictionaries with the fixed key set 1..10
are embedded as insertion-ordered association lists (`PyDict`), so that
key order (and hence the tie-breaking of `max`/`min` over `dict.items()`)
is captured faithfully.  Python floats are embedded as rationals: every
numeric literal of the source (`0.15`, percentages, `round(x, 2)`) is
exactly representable, and `round` is embedded as round-half-to-even, the
rounding mode of Python's built-in `round`.
-/

/-- A game record as consumed by the analyzer.  Only the `'decile'` key is
read by the analytic core; `none` models a dict with no `'decile'` key. -/
structure Game where
  decile : Option Int
deriving Repr, DecidableEq

/-- Models the Python expression `game.get('decile', 0)`. -/
def getDecile (g : Game) : Int := g.decile.getD 0

/-- A Python dict with `int` keys and `int` values, embedded as an
insertion-ordered association list. -/
abbrev PyDict := List (Int × Nat)

/-- The keys produced by `range(1, 11)`, in iteration order. -/
def ascListKeys : List Int := [1, 2, 3, 4, 5, 6, 7, 8, 9, 10]

/-- A dict whose keys are exactly 1..10 in ascending insertion order,
holding `c k` at key `k`. -/
def ascList (c : Int → Nat) : PyDict := ascListKeys.map (fun k => (k, c k))

/-- Models `{i: 0 for i in range(1, 11)}`. -/
def initDistribution : PyDict := ascList (fun _ => 0)

/-- Models an in-place update `dist[k] = f(dist[k])` of a dict: insertion
order is preserved and only the entry at key `k` changes. -/
def updateAt (dist : PyDict) (k : Int) (f : Nat → Nat) : PyDict :=
  dist.map (fun p => if p.1 = k then (p.1, f p.2) else p)

/-- Dict lookup `dist[k]`, defaulting to 0 when the key is absent (the
analyzer only looks up keys it has initialised). -/
def dictGetD (dist : PyDict) (k : Int) : Nat :=
  ((dist.find? (fun p => decide (p.1 = k))).map Prod.snd).getD 0

/-- Embeds `PatternAnalyzer.analyze_decile_distribution` (analysis.py:32-51):
initialise all deciles with 0, then for each game increment the bucket of
`game.get('decile', 0)` when it lies in `[1, 10]`, silently skipping the
game otherwise. -/
def analyze_decile_distribution (games : List Game) : PyDict :=
  games.foldl
    (fun dist game =>
      let decile := getDecile game
      if 1 ≤ decile ∧ decile ≤ 10 then updateAt dist decile (fun n => n + 1)
      else dist)
    initDistribution

/-- Round-half-to-even to an integer, the semantics of Python's built-in
`round` on the exact (rational) value. -/
def roundHalfEven (q : ℚ) : ℤ :=
  let f := ⌊q⌋
  let r := q - f
  if r < 1 / 2 then f
  else if 1 / 2 < r then f + 1
  else if f % 2 = 0 then f else f + 1

/-- Python `round(q, 2)`: round half-to-even at the second decimal. -/
def pyRound2 (q : ℚ) : ℚ := (roundHalfEven (q * 100) : ℚ) / 100

/-- Embeds `PatternAnalyzer.calculate_decile_percentages` (analysis.py:53-71):
all-zero mapping when `total_games == 0`, otherwise
`round(count / total_games * 100, 2)` per key, in the input's key order. -/
def calculate_decile_percentages (distribution : PyDict) (total_games : Nat) :
    List (Int × ℚ) :=
  if total_games = 0 then ascListKeys.map (fun k => (k, (0 : ℚ)))
  else distribution.map (fun p => (p.1, pyRound2 ((p.2 : ℚ) / (total_games : ℚ) * 100)))

/-- One step of Python `max(items, key=lambda x: x[1])`: the running
maximum is replaced only on a strictly larger key, so the first maximal
element wins. -/
def foldMaxStep (best q : Int × Nat) : Int × Nat := if best.2 < q.2 then q else best

/-- One step of Python `min(items, key=lambda x: x[1])`. -/
def foldMinStep (best q : Int × Nat) : Int × Nat := if q.2 < best.2 then q else best

/-- Embeds `PatternAnalyzer.find_most_common_decile` (analysis.py:73-86):
`max(distribution.items(), key=lambda x: x[1])[0]`, with 1 for an empty
dict. -/
def find_most_common_decile (distribution : PyDict) : Int :=
  match distribution with
  | [] => 1
  | p :: ps => (ps.foldl foldMaxStep p).1

/-- Embeds `PatternAnalyzer.find_least_common_decile` (analysis.py:88-101). -/
def find_least_common_decile (distribution : PyDict) : Int :=
  match distribution with
  | [] => 1
  | p :: ps => (ps.foldl foldMinStep p).1

/-- The `PatternAnalysis` model (models.py). -/
structure PatternAnalysis where
  game_count : Nat
  decile_distribution : PyDict
  decile_percentages : List (Int × ℚ)
  most_common_decile : Int
  least_common_decile : Int
deriving Repr

/-- Embeds `PatternAnalyzer.get_pattern_summary` (analysis.py:103-142), with the
list returned by the data-access collaborator
(`db.get_games_for_pattern_analysis`) passed in as `games`. -/
def get_pattern_summary (games : List Game) : PatternAnalysis :=
  if games.isEmpty then
    { game_count := 0
      decile_distribution := initDistribution
      decile_percentages := ascListKeys.map (fun k => (k, (0 : ℚ)))
      most_common_decile := 1
      least_common_decile := 1 }
  else
    let distribution := analyze_decile_distribution games
    let percentages := calculate_decile_percentages distribution games.length
    { game_count := games.length
      decile_distribution := distribution
      decile_percentages := percentages
      most_common_decile := find_most_common_decile distribution
      least_common_decile := find_least_common_decile distribution }

/-- The `PatternComparison` model (models.py). -/
structure PatternComparison where
  last_10_games : PatternAnalysis
  last_30_games : PatternAnalysis
  last_50_games : PatternAnalysis
deriving Repr

/-- Embeds `PatternAnalyzer.compare_patterns` (analysis.py:144-159), with the
three fetched windows passed in. -/
def compare_patterns (g10 g30 g50 : List Game) : PatternComparison :=
  { last_10_games := get_pattern_summary g10
    last_30_games := get_pattern_summary g30
    last_50_games := get_pattern_summary g50 }

/-- Embeds `PatternAnalyzer._determine_trend` (analysis.py:185-206). -/
def determine_trend (comparison : PatternComparison) : String :=
  let most_common_10 := comparison.last_10_games.most_common_decile
  let most_common_30 := comparison.last_30_games.most_common_decile
  let most_common_50 := comparison.last_50_games.most_common_decile
  if most_common_10 = most_common_30 ∧ most_common_30 = most_common_50 then
    "STABLE - Same hot decile across all time windows"
  else if most_common_10 = most_common_30 then
    "RECENT_SHIFT - Pattern changed in last 30 games"
  else if most_common_30 = most_common_50 then
    "NEW_TREND - New pattern emerging in last 10 games"
  else
    "VOLATILE - Pattern changing frequently"

/-- The dict returned by `get_pattern_shift_analysis`. -/
structure ShiftAnalysis where
  most_common_10 : Int
  most_common_30 : Int
  most_common_50 : Int
  consistent : Bool
  trend : String
deriving Repr

/-- Embeds `PatternAnalyzer.get_pattern_shift_analysis` (analysis.py:161-183),
with the three fetched windows passed in.  `consistent` is the chained
Python comparison `a == b == c`. -/
def get_pattern_shift_analysis (g10 g30 g50 : List Game) : ShiftAnalysis :=
  let comparison := compare_patterns g10 g30 g50
  { most_common_10 := comparison.last_10_games.most_common_decile
    most_common_30 := comparison.last_30_games.most_common_decile
    most_common_50 := comparison.last_50_games.most_common_decile
    consistent := decide (comparison.last_10_games.most_common_decile =
        comparison.last_30_games.most_common_decile ∧
      comparison.last_30_games.most_common_decile =
        comparison.last_50_games.most_common_decile)
    trend := determine_trend comparison }

/-- Embeds `PatternAnalyzer.get_decile_range_description` (analysis.py:208-230). -/
def get_decile_range_description (decile : Int) : String :=
  if decile = 1 then "0-10% of pot (Very Low)"
  else if decile = 2 then "11-20% of pot (Low)"
  else if decile = 3 then "21-30% of pot (Low-Medium)"
  else if decile = 4 then "31-40% of pot (Medium-Low)"
  else if decile = 5 then "41-50% of pot (Medium)"
  else if decile = 6 then "51-60% of pot (Medium-High)"
  else if decile = 7 then "61-70% of pot (High-Medium)"
  else if decile = 8 then "71-80% of pot (High)"
  else if decile = 9 then "81-90% of pot (Very High)"
  else if decile = 10 then "91-100% of pot (Extreme High)"
  else "Unknown"

/-- Embeds `PatternAnalyzer._generate_recommendation` (analysis.py:259-283).
`elif hot_deciles:` is Python truthiness, i.e. the list is non-empty. -/
def generate_recommendation (pattern : PatternAnalysis)
    (hot_deciles : List Int) (_cold_deciles : List Int) : String :=
  if pattern.game_count < 10 then
    "Insufficient data for reliable recommendations. Collect more historical games."
  else if hot_deciles.length = 1 then
    "Strong pattern detected: " ++ get_decile_range_description hot_deciles.headI ++
      " is winning frequently. Consider positioning bets in this range."
  else if 5 < hot_deciles.length then
    "Pattern is widely distributed. No clear hot zone. Use standard probability-based betting."
  else if ¬ hot_deciles.isEmpty then
    "Multiple hot zones detected: " ++
      String.intercalate ", " ((hot_deciles.take 3).map get_decile_range_description) ++
      ". Spread bets across these ranges."
  else
    "Pattern appears random. Use bankroll management and expected value calculations."

/-- The dict returned by `get_strategic_insight`. -/
structure Insight where
  hot_zones : List Int
  cold_zones : List Int
  most_common_range : String
  least_common_range : String
  sample_size : Nat
  recommendation : String
deriving Repr

/-- Embeds `PatternAnalyzer.get_strategic_insight` (analysis.py:232-257), with the
fetched window passed in as `games` and the requested window size as
`game_count`.  The Python float literal `0.15` is the exact threshold
`15 / 100` here (for the integer `game_count` values in use, the double
`game_count * 0.15` compares identically to the exact product). -/
def get_strategic_insight (games : List Game) (game_count : Nat) : Insight :=
  let pattern := get_pattern_summary games
  let hot_deciles := (pattern.decile_distribution.filter
    (fun p => decide ((game_count : ℚ) * (15 / 100) ≤ (p.2 : ℚ)))).map Prod.fst
  let cold_deciles := (pattern.decile_distribution.filter
    (fun p => decide (p.2 = 0))).map Prod.fst
  { hot_zones := hot_deciles
    cold_zones := cold_deciles
    most_common_range := get_decile_range_description pattern.most_common_decile
    least_common_range := get_decile_range_description pattern.least_common_decile
    sample_size := pattern.game_count
    recommendation := generate_recommendation pattern hot_deciles cold_deciles }

/-- Embeds `DatabaseManager.calculate_decile` (database.py:217-234).  Both
arguments are non-negative integers; `int(x)` agrees with `⌊x⌋` on the
non-negative percentile. -/
def calculate_decile (winning_ticket : Nat) (pot_value_lamports : Nat) : Int :=
  if pot_value_lamports = 0 then 1
  else
    let percentile : ℚ := ((winning_ticket : ℚ) / (pot_value_lamports : ℚ)) * 100
    if percentile < 100 then min 10 (max 1 (⌊percentile / 10 + 1⌋)) else 10

/-- The count, among `games`, of records whose decile reads as `k` and is
in the valid range; the exact amount `analyze_decile_distribution` adds to
bucket `k`. -/
def cntGames (games : List Game) (k : Int) : Nat :=
  games.countP (fun g => decide (getDecile g = k ∧ 1 ≤ getDecile g ∧ getDecile g ≤ 10))

/-- Sum of a dict's values. -/
def sumValues (dist : PyDict) : Nat := (dist.map Prod.snd).sum

/-- The count, among `games`, of records whose decile reads in the valid
range `[1, 10]` — the number of records that are actually tallied. -/
def countValid (games : List Game) : Nat :=
  games.countP (fun g => decide (1 ≤ getDecile g ∧ getDecile g ≤ 10))

/-- The demonstration record list with deciles `[3, 3, 6, 6, 1]` from the
spec's scenario. -/
def demoGames : List Game :=
  [⟨some 3⟩, ⟨some 3⟩, ⟨some 6⟩, ⟨some 6⟩, ⟨some 1⟩]

theorem ascList_congr {c₁ c₂ : Int → Nat} (h : ∀ k, c₁ k = c₂ k) :
    ascList c₁ = ascList c₂ := by
  unfold ascList
  exact List.map_congr_left (fun k _ => by rw [h k])

theorem updateAt_ascList (c : Int → Nat) (k : Int) (f : Nat → Nat) :
    updateAt (ascList c) k f = ascList (fun j => if j = k then f (c j) else c j) := by
  unfold updateAt ascList
  rw [List.map_map]
  refine List.map_congr_left (fun j _ => ?_)
  by_cases h : j = k <;> simp [h]

theorem cntGames_nil (k : Int) : cntGames [] k = 0 := rfl

theorem cntGames_cons (g : Game) (gs : List Game) (k : Int) :
    cntGames (g :: gs) k =
      cntGames gs k +
        (if getDecile g = k ∧ 1 ≤ getDecile g ∧ getDecile g ≤ 10 then 1 else 0) := by
  unfold cntGames
  rw [List.countP_cons]
  by_cases h : getDecile g = k ∧ 1 ≤ getDecile g ∧ getDecile g ≤ 10 <;> simp [h]

theorem countValid_cons (g : Game) (gs : List Game) :
    countValid (g :: gs) =
      countValid gs + (if 1 ≤ getDecile g ∧ getDecile g ≤ 10 then 1 else 0) := by
  unfold countValid
  rw [List.countP_cons]
  by_cases h : 1 ≤ getDecile g ∧ getDecile g ≤ 10 <;> simp [h]

theorem analyze_fold_eq (games : List Game) (c : Int → Nat) :
    games.foldl
      (fun dist game =>
        let decile := getDecile game
        if 1 ≤ decile ∧ decile ≤ 10 then updateAt dist decile (fun n => n + 1)
        else dist)
      (ascList c) = ascList (fun k => c k + cntGames games k) := by
  induction games generalizing c with
  | nil => exact ascList_congr (fun k => by simp [cntGames_nil])
  | cons g gs ih =>
    simp only [List.foldl_cons]
    by_cases hv : 1 ≤ getDecile g ∧ getDecile g ≤ 10
    · rw [if_pos hv, updateAt_ascList, ih]
      refine ascList_congr (fun k => ?_)
      rw [cntGames_cons]
      by_cases hk : k = getDecile g
      · rw [if_pos hk, if_pos ⟨hk.symm, hv⟩]
        omega
      · rw [if_neg hk, if_neg (fun hc => hk hc.1.symm)]
        omega
    · rw [if_neg hv, ih]
      refine ascList_congr (fun k => ?_)
      rw [cntGames_cons, if_neg (fun hc => hv hc.2)]
      omega

theorem analyze_eq (games : List Game) :
    analyze_decile_distribution games = ascList (cntGames games) := by
  unfold analyze_decile_distribution initDistribution
  rw [analyze_fold_eq]
  exact ascList_congr (fun k => by omega)

theorem ascList_keys (c : Int → Nat) : (ascList c).map Prod.fst = ascListKeys := by
  unfold ascList
  rw [List.map_map]
  exact List.map_id _ ▸ rfl

theorem dictGetD_ascList (c : Int → Nat) (d : Int) (h : d ∈ ascListKeys) :
    dictGetD (ascList c) d = c d := by
  fin_cases h <;> rfl

theorem filter_ascList (c : Int → Nat) (f : Int × Nat → Bool) :
    ((ascList c).filter f).map Prod.fst = ascListKeys.filter (fun k => f (k, c k)) := by
  unfold ascList
  rw [List.filter_map _ _, List.map_map]
  exact List.map_id _ ▸ rfl

theorem ascList_pairwise (c : Int → Nat) :
    (ascList c).Pairwise (fun a b => a.1 < b.1) := by
  unfold ascList
  rw [List.pairwise_map]
  exact (by decide : List.Pairwise (· < ·) ascListKeys).imp (fun h => h)

theorem sumValues_ascList (c : Int → Nat) :
    sumValues (ascList c) =
      c 1 + c 2 + c 3 + c 4 + c 5 + c 6 + c 7 + c 8 + c 9 + c 10 := by
  simp [sumValues, ascList, ascListKeys]
  omega

theorem ite_sum_valid (e : Int) :
    (if e = 1 ∧ 1 ≤ e ∧ e ≤ 10 then 1 else 0) +
    (if e = 2 ∧ 1 ≤ e ∧ e ≤ 10 then 1 else 0) +
    (if e = 3 ∧ 1 ≤ e ∧ e ≤ 10 then 1 else 0) +
    (if e = 4 ∧ 1 ≤ e ∧ e ≤ 10 then 1 else 0) +
    (if e = 5 ∧ 1 ≤ e ∧ e ≤ 10 then 1 else 0) +
    (if e = 6 ∧ 1 ≤ e ∧ e ≤ 10 then 1 else 0) +
    (if e = 7 ∧ 1 ≤ e ∧ e ≤ 10 then 1 else 0) +
    (if e = 8 ∧ 1 ≤ e ∧ e ≤ 10 then 1 else 0) +
    (if e = 9 ∧ 1 ≤ e ∧ e ≤ 10 then 1 else 0) +
    (if e = 10 ∧ 1 ≤ e ∧ e ≤ 10 then 1 else 0) =
      (if 1 ≤ e ∧ e ≤ 10 then 1 else 0) := by
  by_cases hv : 1 ≤ e ∧ e ≤ 10
  · obtain ⟨h1, h2⟩ := hv
    interval_cases e <;> decide
  · have h : ∀ k : Int, ¬(e = k ∧ 1 ≤ e ∧ e ≤ 10) := fun k hc => hv hc.2
    simp only [if_neg (h 1), if_neg (h 2), if_neg (h 3), if_neg (h 4), if_neg (h 5),
      if_neg (h 6), if_neg (h 7), if_neg (h 8), if_neg (h 9), if_neg (h 10), if_neg hv]

theorem ascList_cnt_sum (games : List Game) :
    sumValues (ascList (cntGames games)) = countValid games := by
  rw [sumValues_ascList]
  induction games with
  | nil => rfl
  | cons g gs ih =>
    simp only [cntGames_cons, countValid_cons]
    have h10 := ite_sum_valid (getDecile g)
    omega

theorem foldMaxStep_pos {p r : Int × Nat} (h : p.2 < r.2) : foldMaxStep p r = r := by
  unfold foldMaxStep; rw [if_pos h]

theorem foldMaxStep_neg {p r : Int × Nat} (h : ¬ p.2 < r.2) : foldMaxStep p r = p := by
  unfold foldMaxStep; rw [if_neg h]

theorem foldMax_mem (l : List (Int × Nat)) (p : Int × Nat) :
    l.foldl foldMaxStep p ∈ p :: l := by
  induction l generalizing p with
  | nil => simp
  | cons r t ih =>
    simp only [List.foldl_cons]
    by_cases h : p.2 < r.2
    · rw [foldMaxStep_pos h]
      rcases List.mem_cons.mp (ih r) with h1 | h1
      · simp [h1]
      · simp [List.mem_cons_of_mem, h1]
    · rw [foldMaxStep_neg h]
      rcases List.mem_cons.mp (ih p) with h1 | h1
      · simp [h1]
      · simp [List.mem_cons_of_mem, h1]

theorem foldMax_le (l : List (Int × Nat)) (p : Int × Nat) :
    ∀ q ∈ p :: l, q.2 ≤ (l.foldl foldMaxStep p).2 := by
  induction l generalizing p with
  | nil => intro q hq; rw [List.mem_singleton.mp hq]; simp
  | cons r t ih =>
    intro q hq
    simp only [List.foldl_cons]
    have hself := ih (foldMaxStep p r) (foldMaxStep p r) (List.mem_cons_self _ _)
    rcases List.mem_cons.mp hq with h1 | h1
    · subst h1
      by_cases h : q.2 < r.2
      · rw [foldMaxStep_pos h] at hself ⊢; omega
      · rw [foldMaxStep_neg h] at hself ⊢; omega
    · rcases List.mem_cons.mp h1 with h2 | h2
      · subst h2
        by_cases h : p.2 < q.2
        · rw [foldMaxStep_pos h] at hself ⊢; omega
        · rw [foldMaxStep_neg h] at hself ⊢; omega
      · exact ih (foldMaxStep p r) q (List.mem_cons_of_mem _ h2)

theorem foldMax_first (l : List (Int × Nat)) (p : Int × Nat)
    (hs : (p :: l).Pairwise (fun a b => a.1 < b.1)) :
    ∀ q ∈ p :: l, q.1 < (l.foldl foldMaxStep p).1 → q.2 < (l.foldl foldMaxStep p).2 := by
  induction l generalizing p with
  | nil => intro q hq hlt; rw [List.mem_singleton.mp hq] at hlt; simp at hlt
  | cons r t ih =>
    intro q hq hlt
    simp only [List.foldl_cons] at hlt ⊢
    have hhead := (List.pairwise_cons.mp hs).1
    have htail := (List.pairwise_cons.mp hs).2
    by_cases hpr : p.2 < r.2
    · rw [foldMaxStep_pos hpr] at hlt ⊢
      rcases List.mem_cons.mp hq with h1 | h1
      · subst h1
        have hle := foldMax_le t r r (List.mem_cons_self _ _)
        omega
      · exact ih r htail q h1 hlt
    · rw [foldMaxStep_neg hpr] at hlt ⊢
      have hs' : (p :: t).Pairwise (fun a b => a.1 < b.1) := by
        refine List.Pairwise.cons ?_ (List.pairwise_cons.mp htail).2
        intro b hb
        exact hhead b (List.mem_cons_of_mem _ hb)
      rcases List.mem_cons.mp hq with h1 | h1
      · subst h1
        exact ih q hs' q (List.mem_cons_self _ _) hlt
      · rcases List.mem_cons.mp h1 with h2 | h2
        · subst h2
          have hp1 : p.1 < q.1 := hhead q (List.mem_cons_self _ _)
          have hp2 := ih p hs' p (List.mem_cons_self _ _) (by omega)
          omega
        · exact ih p hs' q (List.mem_cons_of_mem _ h2) hlt

theorem foldMinStep_pos {p r : Int × Nat} (h : r.2 < p.2) : foldMinStep p r = r := by
  unfold foldMinStep; rw [if_pos h]

theorem foldMinStep_neg {p r : Int × Nat} (h : ¬ r.2 < p.2) : foldMinStep p r = p := by
  unfold foldMinStep; rw [if_neg h]

theorem foldMin_mem (l : List (Int × Nat)) (p : Int × Nat) :
    l.foldl foldMinStep p ∈ p :: l := by
  induction l generalizing p with
  | nil => simp
  | cons r t ih =>
    simp only [List.foldl_cons]
    by_cases h : r.2 < p.2
    · rw [foldMinStep_pos h]
      rcases List.mem_cons.mp (ih r) with h1 | h1
      · simp [h1]
      · simp [List.mem_cons_of_mem, h1]
    · rw [foldMinStep_neg h]
      rcases List.mem_cons.mp (ih p) with h1 | h1
      · simp [h1]
      · simp [List.mem_cons_of_mem, h1]

theorem foldMin_le (l : List (Int × Nat)) (p : Int × Nat) :
    ∀ q ∈ p :: l, (l.foldl foldMinStep p).2 ≤ q.2 := by
  induction l generalizing p with
  | nil => intro q hq; rw [List.mem_singleton.mp hq]; simp
  | cons r t ih =>
    intro q hq
    simp only [List.foldl_cons]
    have hself := ih (foldMinStep p r) (foldMinStep p r) (List.mem_cons_self _ _)
    rcases List.mem_cons.mp hq with h1 | h1
    · subst h1
      by_cases h : r.2 < q.2
      · rw [foldMinStep_pos h] at hself ⊢; omega
      · rw [foldMinStep_neg h] at hself ⊢; omega
    · rcases List.mem_cons.mp h1 with h2 | h2
      · subst h2
        by_cases h : q.2 < p.2
        · rw [foldMinStep_pos h] at hself ⊢; omega
        · rw [foldMinStep_neg h] at hself ⊢; omega
      · exact ih (foldMinStep p r) q (List.mem_cons_of_mem _ h2)

theorem foldMin_first (l : List (Int × Nat)) (p : Int × Nat)
    (hs : (p :: l).Pairwise (fun a b => a.1 < b.1)) :
    ∀ q ∈ p :: l, q.1 < (l.foldl foldMinStep p).1 → (l.foldl foldMinStep p).2 < q.2 := by
  induction l generalizing p with
  | nil => intro q hq hlt; rw [List.mem_singleton.mp hq] at hlt; simp at hlt
  | cons r t ih =>
    intro q hq hlt
    simp only [List.foldl_cons] at hlt ⊢
    have hhead := (List.pairwise_cons.mp hs).1
    have htail := (List.pairwise_cons.mp hs).2
    by_cases hpr : r.2 < p.2
    · rw [foldMinStep_pos hpr] at hlt ⊢
      rcases List.mem_cons.mp hq with h1 | h1
      · subst h1
        have hle := foldMin_le t r r (List.mem_cons_self _ _)
        omega
      · exact ih r htail q h1 hlt
    · rw [foldMinStep_neg hpr] at hlt ⊢
      have hs' : (p :: t).Pairwise (fun a b => a.1 < b.1) := by
        refine List.Pairwise.cons ?_ (List.pairwise_cons.mp htail).2
        intro b hb
        exact hhead b (List.mem_cons_of_mem _ hb)
      rcases List.mem_cons.mp hq with h1 | h1
      · subst h1
        exact ih q hs' q (List.mem_cons_self _ _) hlt
      · rcases List.mem_cons.mp h1 with h2 | h2
        · subst h2
          have hp1 : p.1 < q.1 := hhead q (List.mem_cons_self _ _)
          have hp2 := ih p hs' p (List.mem_cons_self _ _) (by omega)
          omega
        · exact ih p hs' q (List.mem_cons_of_mem _ h2) hlt

theorem roundHalfEven_abs (q : ℚ) : |((roundHalfEven q : ℤ) : ℚ) - q| ≤ 1 / 2 := by
  unfold roundHalfEven
  have hfr1 : (0:ℚ) ≤ q - ⌊q⌋ := by
    have := Int.floor_le q
    linarith
  have hfr2 : q - ⌊q⌋ < 1 := by
    have := Int.lt_floor_add_one q
    linarith
  by_cases h1 : q - ⌊q⌋ < 1 / 2
  · rw [if_pos h1, abs_le]
    constructor <;> linarith
  · rw [if_neg h1]
    by_cases h2 : 1 / 2 < q - ⌊q⌋
    · rw [if_pos h2, abs_le]
      push_cast
      constructor <;> linarith
    · rw [if_neg h2]
      by_cases h3 : (⌊q⌋ : ℤ) % 2 = 0
      · rw [if_pos h3, abs_le]
        constructor <;> linarith
      · rw [if_neg h3, abs_le]
        push_cast
        constructor <;> linarith

theorem pyRound2_abs (q : ℚ) : |pyRound2 q - q| ≤ 1 / 200 := by
  unfold pyRound2
  have h := roundHalfEven_abs (q * 100)
  have heq : ((roundHalfEven (q * 100) : ℤ) : ℚ) / 100 - q
      = (((roundHalfEven (q * 100) : ℤ) : ℚ) - q * 100) / 100 := by ring
  rw [heq, abs_div]
  rw [show |(100:ℚ)| = 100 by norm_num]
  linarith [abs_nonneg (((roundHalfEven (q * 100) : ℤ) : ℚ) - q * 100)]

theorem sum_map_pyRound2_abs (l : List ℚ) :
    |(l.map pyRound2).sum - l.sum| ≤ l.length * (1 / 200) := by
  induction l with
  | nil => simp
  | cons a t ih =>
    simp only [List.map_cons, List.sum_cons, List.length_cons]
    have ha := pyRound2_abs a
    have habs := abs_add (pyRound2 a - a) ((t.map pyRound2).sum - t.sum)
    have heq : pyRound2 a + (t.map pyRound2).sum - (a + t.sum)
        = (pyRound2 a - a) + ((t.map pyRound2).sum - t.sum) := by ring
    rw [heq]
    push_cast
    calc |(pyRound2 a - a) + ((t.map pyRound2).sum - t.sum)|
        ≤ |pyRound2 a - a| + |(t.map pyRound2).sum - t.sum| := habs
      _ ≤ 1 / 200 + t.length * (1 / 200) := by linarith
      _ = (t.length + 1) * (1 / 200) := by ring

theorem ascList_expand (c : Int → Nat) :
    ascList c = (1, c 1) :: [(2, c 2), (3, c 3), (4, c 4), (5, c 5),
      (6, c 6), (7, c 7), (8, c 8), (9, c 9), (10, c 10)] := rfl

theorem find_most_ascList (c : Int → Nat) :
    find_most_common_decile (ascList c) ∈ ascListKeys ∧
    (∀ d ∈ ascListKeys, c d ≤ c (find_most_common_decile (ascList c))) ∧
    (∀ d ∈ ascListKeys, d < find_most_common_decile (ascList c) →
      c d < c (find_most_common_decile (ascList c))) := by
  have hL := ascList_expand c
  set T : List (Int × Nat) := [(2, c 2), (3, c 3), (4, c 4), (5, c 5),
    (6, c 6), (7, c 7), (8, c 8), (9, c 9), (10, c 10)] with hT
  have hfind : find_most_common_decile (ascList c) = (T.foldl foldMaxStep (1, c 1)).1 := by
    rw [hL]
    rfl
  have hmem : T.foldl foldMaxStep (1, c 1) ∈ ascList c := by
    rw [hL]
    exact foldMax_mem T (1, c 1)
  obtain ⟨k, hk, hkm⟩ := List.mem_map.mp hmem
  have hpair : (T.foldl foldMaxStep (1, c 1)).2 = c (T.foldl foldMaxStep (1, c 1)).1 := by
    rw [← hkm]
  have hkeys : (T.foldl foldMaxStep (1, c 1)).1 ∈ ascListKeys := by
    rw [← hkm]
    exact hk
  refine ⟨hfind ▸ hkeys, ?_, ?_⟩
  · intro d hd
    have hdm : (d, c d) ∈ (1, c 1) :: T := by
      rw [← hL]
      exact List.mem_map.mpr ⟨d, hd, rfl⟩
    have h := foldMax_le T (1, c 1) (d, c d) hdm
    rw [hfind, ← hpair]
    exact h
  · intro d hd hlt
    have hdm : (d, c d) ∈ (1, c 1) :: T := by
      rw [← hL]
      exact List.mem_map.mpr ⟨d, hd, rfl⟩
    have hpw : ((1, c 1) :: T).Pairwise (fun a b => a.1 < b.1) := by
      rw [← hL]
      exact ascList_pairwise c
    rw [hfind] at hlt
    have h := foldMax_first T (1, c 1) hpw (d, c d) hdm hlt
    rw [hfind, ← hpair]
    exact h

theorem find_least_ascList (c : Int → Nat) :
    find_least_common_decile (ascList c) ∈ ascListKeys ∧
    (∀ d ∈ ascListKeys, c (find_least_common_decile (ascList c)) ≤ c d) ∧
    (∀ d ∈ ascListKeys, d < find_least_common_decile (ascList c) →
      c (find_least_common_decile (ascList c)) < c d) := by
  have hL := ascList_expand c
  set T : List (Int × Nat) := [(2, c 2), (3, c 3), (4, c 4), (5, c 5),
    (6, c 6), (7, c 7), (8, c 8), (9, c 9), (10, c 10)] with hT
  have hfind : find_least_common_decile (ascList c) = (T.foldl foldMinStep (1, c 1)).1 := by
    rw [hL]
    rfl
  have hmem : T.foldl foldMinStep (1, c 1) ∈ ascList c := by
    rw [hL]
    exact foldMin_mem T (1, c 1)
  obtain ⟨k, hk, hkm⟩ := List.mem_map.mp hmem
  have hpair : (T.foldl foldMinStep (1, c 1)).2 = c (T.foldl foldMinStep (1, c 1)).1 := by
    rw [← hkm]
  have hkeys : (T.foldl foldMinStep (1, c 1)).1 ∈ ascListKeys := by
    rw [← hkm]
    exact hk
  refine ⟨hfind ▸ hkeys, ?_, ?_⟩
  · intro d hd
    have hdm : (d, c d) ∈ (1, c 1) :: T := by
      rw [← hL]
      exact List.mem_map.mpr ⟨d, hd, rfl⟩
    have h := foldMin_le T (1, c 1) (d, c d) hdm
    rw [hfind, ← hpair]
    exact h
  · intro d hd hlt
    have hdm : (d, c d) ∈ (1, c 1) :: T := by
      rw [← hL]
      exact List.mem_map.mpr ⟨d, hd, rfl⟩
    have hpw : ((1, c 1) :: T).Pairwise (fun a b => a.1 < b.1) := by
      rw [← hL]
      exact ascList_pairwise c
    rw [hfind] at hlt
    have h := foldMin_first T (1, c 1) hpw (d, c d) hdm hlt
    rw [hfind, ← hpair]
    exact h

theorem summary_dist (games : List Game) :
    (get_pattern_summary games).decile_distribution = ascList (cntGames games) := by
  by_cases h : games.isEmpty
  · have hg : games = [] := List.isEmpty_iff.mp h
    subst hg
    rfl
  · unfold get_pattern_summary
    rw [if_neg h]
    exact analyze_eq games

theorem summary_game_count (games : List Game) :
    (get_pattern_summary games).game_count = games.length := by
  by_cases h : games.isEmpty
  · have hg : games = [] := List.isEmpty_iff.mp h
    subst hg
    rfl
  · unfold get_pattern_summary
    rw [if_neg h]

/-- C1: `analyze_decile_distribution` returns a mapping with exactly the ten
keys 1..10 (in ascending insertion order, present even for empty input); for
each decile `d` in `[1, 10]` the stored count is exactly the number of
records whose decile field reads as `d`; and a record with an out-of-range
or missing decile leaves the distribution unchanged (it is silently
ignored; the function is total, so no error is raised). -/
theorem C1_decile_distribution (games : List Game) :
    (analyze_decile_distribution games).map Prod.fst = ascListKeys ∧
    (∀ d : Int, 1 ≤ d → d ≤ 10 →
      dictGetD (analyze_decile_distribution games) d =
        games.countP (fun g => decide (getDecile g = d))) ∧
    (∀ g : Game, ¬ (1 ≤ getDecile g ∧ getDecile g ≤ 10) →
      analyze_decile_distribution (g :: games) = analyze_decile_distribution games) := by
  refine ⟨?_, ?_, ?_⟩
  · rw [analyze_eq]
    exact ascList_keys _
  · intro d h1 h2
    have hd : d ∈ ascListKeys := by
      unfold ascListKeys
      interval_cases d <;> decide
    rw [analyze_eq, dictGetD_ascList _ _ hd]
    unfold cntGames
    refine List.countP_congr (fun g hg => ?_)
    simp only [decide_eq_true_eq]
    constructor
    · exact fun hc => hc.1
    · exact fun hc => ⟨hc, by omega, by omega⟩
  · intro g hv
    unfold analyze_decile_distribution
    simp only [List.foldl_cons]
    rw [if_neg hv]

/-- Witness for C1: in the demo records, decile 3 was counted twice. -/
theorem C1_decile_distribution_witness :
    (1 : Int) ≤ 3 ∧ (3 : Int) ≤ 10 ∧
      dictGetD (analyze_decile_distribution demoGames) 3 =
        demoGames.countP (fun g => decide (getDecile g = 3)) :=
  ⟨by decide, by decide, (C1_decile_distribution demoGames).2.1 3 (by decide) (by decide)⟩

/-- C2 counterexample: a single record with a missing decile key is silently
ignored, so the counts sum to 0 although the input list has length 1; the
counts do not in general sum to the length of the input list. -/
theorem C2_counterexample :
    sumValues (analyze_decile_distribution [⟨none⟩]) ≠
      ([⟨none⟩] : List Game).length := by
  decide

/-- C2 (amended): the counts in the distribution sum to the number of
records whose decile lies in `[1, 10]`; in particular they sum to the length
of the input list whenever every record's decile is in range. -/
theorem C2_sum_counts (games : List Game) :
    sumValues (analyze_decile_distribution games) = countValid games ∧
    ((∀ g ∈ games, 1 ≤ getDecile g ∧ getDecile g ≤ 10) →
      sumValues (analyze_decile_distribution games) = games.length) := by
  have h1 : sumValues (analyze_decile_distribution games) = countValid games := by
    rw [analyze_eq]
    exact ascList_cnt_sum games
  refine ⟨h1, fun hall => ?_⟩
  rw [h1]
  unfold countValid
  refine List.countP_eq_length.mpr (fun g hg => ?_)
  simpa using hall g hg

/-- Witness for C2 (amended): all five demo records are in range and the
counts sum to 5. -/
theorem C2_sum_counts_witness :
    (∀ g ∈ demoGames, 1 ≤ getDecile g ∧ getDecile g ≤ 10) ∧
      sumValues (analyze_decile_distribution demoGames) = demoGames.length :=
  ⟨by decide, (C2_sum_counts demoGames).2 (by decide)⟩

/-- C4: on a distribution with keys 1..10 in ascending iteration order,
`find_most_common_decile` returns the smallest decile attaining the maximum
count and `find_least_common_decile` the smallest decile attaining the
minimum count (first key in ascending order wins ties); an empty
distribution yields 1 for both; and for the demo records with deciles
`[3, 3, 6, 6, 1]` the most common decile is 3. -/
theorem C4_extreme_deciles :
    (∀ c : Int → Nat,
      find_most_common_decile (ascList c) ∈ ascListKeys ∧
      (∀ d ∈ ascListKeys, c d ≤ c (find_most_common_decile (ascList c))) ∧
      (∀ d ∈ ascListKeys, d < find_most_common_decile (ascList c) →
        c d < c (find_most_common_decile (ascList c)))) ∧
    (∀ c : Int → Nat,
      find_least_common_decile (ascList c) ∈ ascListKeys ∧
      (∀ d ∈ ascListKeys, c (find_least_common_decile (ascList c)) ≤ c d) ∧
      (∀ d ∈ ascListKeys, d < find_least_common_decile (ascList c) →
        c (find_least_common_decile (ascList c)) < c d)) ∧
    find_most_common_decile [] = 1 ∧
    find_least_common_decile [] = 1 ∧
    find_most_common_decile (analyze_decile_distribution demoGames) = 3 :=
  ⟨find_most_ascList, find_least_ascList, rfl, rfl, by decide⟩

/-- Witness for C4: decile 3 is a key and its count in the demo records is
at most the count of the returned most common decile. -/
theorem C4_extreme_deciles_witness :
    (3 : Int) ∈ ascListKeys ∧
      cntGames demoGames 3 ≤
        cntGames demoGames (find_most_common_decile (ascList (cntGames demoGames))) :=
  ⟨by decide, (C4_extreme_deciles.1 (cntGames demoGames)).2.1 3 (by decide)⟩

/-- C9: the distribution, and hence the most and least common deciles, are
invariant under permutation of the input record list. -/
theorem C9_order_invariance (l1 l2 : List Game) (h : l1.Perm l2) :
    analyze_decile_distribution l1 = analyze_decile_distribution l2 ∧
    find_most_common_decile (analyze_decile_distribution l1) =
      find_most_common_decile (analyze_decile_distribution l2) ∧
    find_least_common_decile (analyze_decile_distribution l1) =
      find_least_common_decile (analyze_decile_distribution l2) := by
  have hd : analyze_decile_distribution l1 = analyze_decile_distribution l2 := by
    rw [analyze_eq, analyze_eq]
    refine ascList_congr (fun k => ?_)
    unfold cntGames
    exact h.countP_eq _
  exact ⟨hd, by rw [hd], by rw [hd]⟩

/-- Witness for C9: swapping two records leaves the distribution unchanged. -/
theorem C9_order_invariance_witness :
    analyze_decile_distribution [⟨some 2⟩, ⟨some 5⟩] =
      analyze_decile_distribution [⟨some 5⟩, ⟨some 2⟩] :=
  (C9_order_invariance _ _ (List.Perm.swap _ _ _)).1

/-- C10: `calculate_decile` is total and always returns an integer in
`[1, 10]` on non-negative inputs; with a zero pot value it returns 1 (the
division is guarded and never reached). -/
theorem C10_calculate_decile_total (t p : Nat) :
    1 ≤ calculate_decile t p ∧ calculate_decile t p ≤ 10 ∧
      calculate_decile t 0 = 1 := by
  have hb : 1 ≤ calculate_decile t p ∧ calculate_decile t p ≤ 10 := by
    simp only [calculate_decile]
    split_ifs with hp hlt
    · exact ⟨le_refl 1, by norm_num⟩
    · exact ⟨le_min (by norm_num) (le_max_left _ _), min_le_left _ _⟩
    · norm_num
  exact ⟨hb.1, hb.2, rfl⟩

/-- C7: with no records available, `get_pattern_summary` returns (without
raising) the empty analysis: zero games, all-zero distribution over deciles
1..10, all-zero percentages, and both extreme deciles defaulting to 1. -/
theorem C7_empty_summary :
    get_pattern_summary [] =
      { game_count := 0
        decile_distribution := [(1, 0), (2, 0), (3, 0), (4, 0), (5, 0),
          (6, 0), (7, 0), (8, 0), (9, 0), (10, 0)]
        decile_percentages := [(1, 0), (2, 0), (3, 0), (4, 0), (5, 0),
          (6, 0), (7, 0), (8, 0), (9, 0), (10, 0)]
        most_common_decile := 1
        least_common_decile := 1 } := rfl

/-- C8: for a positive pot value the computed decile is exactly
`clamp(floor(ticket_percentile / 10) + 1, 1, 10)`, and a ticket percentile
of exactly 100 yields decile 10. -/
theorem C8_decile_invariant (t p : Nat) (hp : 0 < p) :
    calculate_decile t p =
      min 10 (max 1 (⌊(t : ℚ) / (p : ℚ) * 100 / 10⌋ + 1)) ∧
    ((t : ℚ) / (p : ℚ) * 100 = 100 → calculate_decile t p = 10) := by
  have hp0 : p ≠ 0 := by omega
  constructor
  · simp only [calculate_decile]
    rw [if_neg hp0]
    by_cases hlt : (t : ℚ) / (p : ℚ) * 100 < 100
    · rw [if_pos hlt, Int.floor_add_one]
    · push_neg at hlt
      rw [if_neg (not_lt.mpr hlt)]
      have h10 : (10 : ℤ) ≤ ⌊(t : ℚ) / (p : ℚ) * 100 / 10⌋ := by
        rw [Int.le_floor]
        push_cast
        linarith
      rw [max_eq_right (by omega), min_eq_left (by omega)]
  · intro h100
    simp only [calculate_decile]
    rw [if_neg hp0, if_neg (by rw [h100]; exact lt_irrefl 100)]

/-- Witness for C8: ticket 100 of a 100-lamport pot has percentile exactly
100 and lands in decile 10. -/
theorem C8_decile_invariant_witness :
    0 < 100 ∧ calculate_decile 100 100 = 10 :=
  ⟨by decide, (C8_decile_invariant 100 100 (by decide)).2 (by norm_num)⟩

theorem determine_trend_spec (comp : PatternComparison) :
    (comp.last_10_games.most_common_decile = comp.last_30_games.most_common_decile ∧
        comp.last_30_games.most_common_decile = comp.last_50_games.most_common_decile →
      determine_trend comp = "STABLE - Same hot decile across all time windows") ∧
    (comp.last_10_games.most_common_decile = comp.last_30_games.most_common_decile ∧
        comp.last_30_games.most_common_decile ≠ comp.last_50_games.most_common_decile →
      determine_trend comp = "RECENT_SHIFT - Pattern changed in last 30 games") ∧
    (comp.last_10_games.most_common_decile ≠ comp.last_30_games.most_common_decile ∧
        comp.last_30_games.most_common_decile = comp.last_50_games.most_common_decile →
      determine_trend comp = "NEW_TREND - New pattern emerging in last 10 games") ∧
    (comp.last_10_games.most_common_decile ≠ comp.last_30_games.most_common_decile ∧
        comp.last_30_games.most_common_decile ≠ comp.last_50_games.most_common_decile →
      determine_trend comp = "VOLATILE - Pattern changing frequently") := by
  simp only [determine_trend]
  refine ⟨fun h => ?_, fun h => ?_, fun h => ?_, fun h => ?_⟩
  · rw [if_pos h]
  · rw [if_neg (fun hc => h.2 hc.2), if_pos h.1]
  · rw [if_neg (fun hc => h.1 hc.1), if_neg h.1, if_pos h.2]
  · rw [if_neg (fun hc => h.1 hc.1), if_neg h.1, if_neg h.2]

/-- C5: `get_pattern_shift_analysis` classifies the trend into exactly one
of four labels in priority order (all equal: STABLE; else 10-window equals
30-window: RECENT_SHIFT; else 30-window equals 50-window: NEW_TREND; else
VOLATILE), its `consistent` flag holds exactly when all three most-common
deciles agree, and windows with most-common deciles (4, 4, 7) produce
RECENT_SHIFT with `consistent = false`. -/
theorem C5_trend_classification (g10 g30 g50 : List Game) :
    ((get_pattern_shift_analysis g10 g30 g50).most_common_10 =
          (get_pattern_shift_analysis g10 g30 g50).most_common_30 ∧
        (get_pattern_shift_analysis g10 g30 g50).most_common_30 =
          (get_pattern_shift_analysis g10 g30 g50).most_common_50 →
      (get_pattern_shift_analysis g10 g30 g50).trend =
        "STABLE - Same hot decile across all time windows") ∧
    ((get_pattern_shift_analysis g10 g30 g50).most_common_10 =
          (get_pattern_shift_analysis g10 g30 g50).most_common_30 ∧
        (get_pattern_shift_analysis g10 g30 g50).most_common_30 ≠
          (get_pattern_shift_analysis g10 g30 g50).most_common_50 →
      (get_pattern_shift_analysis g10 g30 g50).trend =
        "RECENT_SHIFT - Pattern changed in last 30 games") ∧
    ((get_pattern_shift_analysis g10 g30 g50).most_common_10 ≠
          (get_pattern_shift_analysis g10 g30 g50).most_common_30 ∧
        (get_pattern_shift_analysis g10 g30 g50).most_common_30 =
          (get_pattern_shift_analysis g10 g30 g50).most_common_50 →
      (get_pattern_shift_analysis g10 g30 g50).trend =
        "NEW_TREND - New pattern emerging in last 10 games") ∧
    ((get_pattern_shift_analysis g10 g30 g50).most_common_10 ≠
          (get_pattern_shift_analysis g10 g30 g50).most_common_30 ∧
        (get_pattern_shift_analysis g10 g30 g50).most_common_30 ≠
          (get_pattern_shift_analysis g10 g30 g50).most_common_50 →
      (get_pattern_shift_analysis g10 g30 g50).trend =
        "VOLATILE - Pattern changing frequently") ∧
    ((get_pattern_shift_analysis g10 g30 g50).consistent = true ↔
      ((get_pattern_shift_analysis g10 g30 g50).most_common_10 =
          (get_pattern_shift_analysis g10 g30 g50).most_common_30 ∧
        (get_pattern_shift_analysis g10 g30 g50).most_common_30 =
          (get_pattern_shift_analysis g10 g30 g50).most_common_50)) ∧
    ((get_pattern_shift_analysis [⟨some 4⟩] [⟨some 4⟩] [⟨some 7⟩]).trend =
        "RECENT_SHIFT - Pattern changed in last 30 games" ∧
      (get_pattern_shift_analysis [⟨some 4⟩] [⟨some 4⟩] [⟨some 7⟩]).consistent = false) := by
  have hd := determine_trend_spec (compare_patterns g10 g30 g50)
  refine ⟨fun h => hd.1 h, fun h => hd.2.1 h, fun h => hd.2.2.1 h, fun h => hd.2.2.2 h,
    ?_, by decide, by decide⟩
  constructor
  · intro h
    exact of_decide_eq_true h
  · intro h
    exact decide_eq_true h

/-- Witness for C5: two windows sharing most-common decile 4 against a
third with 7 realise the RECENT_SHIFT branch. -/
theorem C5_trend_classification_witness :
    ((get_pattern_shift_analysis [⟨some 4⟩] [⟨some 4⟩] [⟨some 7⟩]).most_common_10 =
        (get_pattern_shift_analysis [⟨some 4⟩] [⟨some 4⟩] [⟨some 7⟩]).most_common_30 ∧
      (get_pattern_shift_analysis [⟨some 4⟩] [⟨some 4⟩] [⟨some 7⟩]).most_common_30 ≠
        (get_pattern_shift_analysis [⟨some 4⟩] [⟨some 4⟩] [⟨some 7⟩]).most_common_50) ∧
      (get_pattern_shift_analysis [⟨some 4⟩] [⟨some 4⟩] [⟨some 7⟩]).trend =
        "RECENT_SHIFT - Pattern changed in last 30 games" :=
  ⟨⟨by decide, by decide⟩,
    (C5_trend_classification [⟨some 4⟩] [⟨some 4⟩] [⟨some 7⟩]).2.1 ⟨by decide, by decide⟩⟩

/-- C3: `calculate_decile_percentages` returns exactly 0.0 for every decile
when the total is zero; otherwise each decile's percentage is
`round(count / total * 100, 2)`; and when the counts sum to the total, the
ten percentages sum to within 0.1 of 100. -/
theorem C3_percentages (c : Int → Nat) (total : Nat) :
    calculate_decile_percentages (ascList c) 0 =
      ascListKeys.map (fun k => (k, (0 : ℚ))) ∧
    (0 < total → calculate_decile_percentages (ascList c) total =
      ascListKeys.map (fun k => (k, pyRound2 ((c k : ℚ) / (total : ℚ) * 100)))) ∧
    (0 < total → sumValues (ascList c) = total →
      |((calculate_decile_percentages (ascList c) total).map Prod.snd).sum - 100| ≤
        1 / 10) := by
  have hmap : total ≠ 0 → calculate_decile_percentages (ascList c) total =
      ascListKeys.map (fun k => (k, pyRound2 ((c k : ℚ) / (total : ℚ) * 100))) := by
    intro h0
    simp only [calculate_decile_percentages, if_neg h0]
    unfold ascList
    rw [List.map_map]
    rfl
  refine ⟨by simp [calculate_decile_percentages], fun ht => hmap (by omega), fun ht hsum => ?_⟩
  rw [hmap (by omega)]
  have hmapsnd :
      ((ascListKeys.map (fun k => (k, pyRound2 ((c k : ℚ) / (total : ℚ) * 100)))).map
          Prod.snd) =
        (ascListKeys.map (fun k => (c k : ℚ) / (total : ℚ) * 100)).map pyRound2 := by
    rw [List.map_map, List.map_map]
    rfl
  rw [hmapsnd]
  have hbound := sum_map_pyRound2_abs (ascListKeys.map (fun k => (c k : ℚ) / (total : ℚ) * 100))
  have hlen : (ascListKeys.map (fun k => (c k : ℚ) / (total : ℚ) * 100)).length = 10 := by
    simp [ascListKeys]
  have hn : c 1 + c 2 + c 3 + c 4 + c 5 + c 6 + c 7 + c 8 + c 9 + c 10 = total := by
    rw [← sumValues_ascList]
    exact hsum
  have hcsum : ((c 1 + c 2 + c 3 + c 4 + c 5 + c 6 + c 7 + c 8 + c 9 + c 10 : ℕ) : ℚ) =
      (total : ℚ) := by
    exact_mod_cast hn
  have htQ : (total : ℚ) ≠ 0 := Nat.cast_ne_zero.mpr (by omega)
  have hsumQ : (ascListKeys.map (fun k => (c k : ℚ) / (total : ℚ) * 100)).sum = 100 := by
    simp only [ascListKeys, List.map_cons, List.map_nil, List.sum_cons, List.sum_nil]
    push_cast at hcsum
    field_simp
    linarith
  rw [hlen, hsumQ] at hbound
  refine le_trans hbound (by norm_num)

/-- Witness for C3: ten equal counts of 1 over a total of 10 give
percentages summing within 0.1 of 100. -/
theorem C3_percentages_witness :
    0 < 10 ∧ sumValues (ascList (fun _ => 1)) = 10 ∧
      |((calculate_decile_percentages (ascList (fun _ => 1)) 10).map Prod.snd).sum - 100| ≤
        1 / 10 :=
  ⟨by decide, by decide,
    (C3_percentages (fun _ => 1) 10).2.2 (by decide) (by decide)⟩

/-- C6: `get_strategic_insight` computes hot zones as exactly the deciles
whose count is at least `0.15 * windowSize` (listed in ascending decile
order) and cold zones as exactly the zero-count deciles, and picks the
recommendation by first match in priority order: sample size below 10,
exactly one hot zone, more than five hot zones, two to five hot zones
(listing the first three ranges), then no hot zones. -/
theorem C6_strategic_insight (games : List Game) (game_count : Nat) :
    (get_strategic_insight games game_count).hot_zones.Pairwise (fun a b => a < b) ∧
    (∀ d : Int, d ∈ (get_strategic_insight games game_count).hot_zones ↔
      d ∈ ascListKeys ∧
        (game_count : ℚ) * (15 / 100) ≤ (cntGames games d : ℚ)) ∧
    (∀ d : Int, d ∈ (get_strategic_insight games game_count).cold_zones ↔
      d ∈ ascListKeys ∧ cntGames games d = 0) ∧
    ((get_pattern_summary games).game_count < 10 →
      (get_strategic_insight games game_count).recommendation =
        "Insufficient data for reliable recommendations. Collect more historical games.") ∧
    (¬ (get_pattern_summary games).game_count < 10 →
      (get_strategic_insight games game_count).hot_zones.length = 1 →
      (get_strategic_insight games game_count).recommendation =
        "Strong pattern detected: " ++
          get_decile_range_description
            (get_strategic_insight games game_count).hot_zones.headI ++
          " is winning frequently. Consider positioning bets in this range.") ∧
    (¬ (get_pattern_summary games).game_count < 10 →
      5 < (get_strategic_insight games game_count).hot_zones.length →
      (get_strategic_insight games game_count).recommendation =
        "Pattern is widely distributed. No clear hot zone. Use standard probability-based betting.") ∧
    (¬ (get_pattern_summary games).game_count < 10 →
      2 ≤ (get_strategic_insight games game_count).hot_zones.length →
      (get_strategic_insight games game_count).hot_zones.length ≤ 5 →
      (get_strategic_insight games game_count).recommendation =
        "Multiple hot zones detected: " ++
          String.intercalate ", "
            (((get_strategic_insight games game_count).hot_zones.take 3).map
              get_decile_range_description) ++
          ". Spread bets across these ranges.") ∧
    (¬ (get_pattern_summary games).game_count < 10 →
      (get_strategic_insight games game_count).hot_zones.length = 0 →
      (get_strategic_insight games game_count).recommendation =
        "Pattern appears random. Use bankroll management and expected value calculations.") := by
  have hhot : (get_strategic_insight games game_count).hot_zones =
      ascListKeys.filter
        (fun k => decide ((game_count : ℚ) * (15 / 100) ≤ (cntGames games k : ℚ))) := by
    show ((get_pattern_summary games).decile_distribution.filter
      (fun p => decide ((game_count : ℚ) * (15 / 100) ≤ (p.2 : ℚ)))).map Prod.fst = _
    rw [summary_dist, filter_ascList]
  have hcold : (get_strategic_insight games game_count).cold_zones =
      ascListKeys.filter (fun k => decide (cntGames games k = 0)) := by
    show ((get_pattern_summary games).decile_distribution.filter
      (fun p => decide (p.2 = 0))).map Prod.fst = _
    rw [summary_dist, filter_ascList]
  have hrec : (get_strategic_insight games game_count).recommendation =
      generate_recommendation (get_pattern_summary games)
        (get_strategic_insight games game_count).hot_zones
        (get_strategic_insight games game_count).cold_zones := rfl
  refine ⟨?_, ?_, ?_, ?_, ?_, ?_, ?_, ?_⟩
  · rw [hhot]
    exact ((by decide : List.Pairwise (fun a b : Int => a < b) ascListKeys).filter _)
  · intro d
    rw [hhot]
    simp [List.mem_filter]
  · intro d
    rw [hcold]
    simp [List.mem_filter]
  · intro h
    rw [hrec]
    simp only [generate_recommendation]
    rw [if_pos h]
  · intro h hlen
    rw [hrec]
    simp only [generate_recommendation]
    rw [if_neg h, if_pos hlen]
  · intro h h5
    have h1 : (get_strategic_insight games game_count).hot_zones.length ≠ 1 := by omega
    rw [hrec]
    simp only [generate_recommendation]
    rw [if_neg h, if_neg h1, if_pos h5]
  · intro h h2 h5
    have h1 : (get_strategic_insight games game_count).hot_zones.length ≠ 1 := by omega
    have hlt : ¬ 5 < (get_strategic_insight games game_count).hot_zones.length := by omega
    have hne : ¬ ((get_strategic_insight games game_count).hot_zones.isEmpty = true) := by
      intro hemp
      rw [List.isEmpty_iff.mp hemp] at h2
      simp at h2
    rw [hrec]
    simp only [generate_recommendation]
    rw [if_neg h, if_neg h1, if_neg hlt, if_pos hne]
  · intro h h0
    have h1 : (get_strategic_insight games game_count).hot_zones.length ≠ 1 := by omega
    have hlt : ¬ 5 < (get_strategic_insight games game_count).hot_zones.length := by omega
    have hemp : (get_strategic_insight games game_count).hot_zones.isEmpty = true := by
      rw [List.length_eq_zero] at h0
      rw [h0]
      rfl
    rw [hrec]
    simp only [generate_recommendation]
    rw [if_neg h, if_neg h1, if_neg hlt, if_neg (fun hc => hc hemp)]

/-- Witness for C6: an empty history has sample size 0, so the
insufficient-data branch fires. -/
theorem C6_strategic_insight_witness :
    (get_pattern_summary ([] : List Game)).game_count < 10 ∧
      (get_strategic_insight [] 10).recommendation =
        "Insufficient data for reliable recommendations. Collect more historical games." :=
  ⟨by decide, (C6_strategic_insight [] 10).2.2.2.1 (by decide)⟩
